import Mathlib

/-!
Verification of the static-db backend (the journal-based draft under
`src-tauri/src/backend`) against its natural-language specification.

The Rust modules are shallowly embedded:

* `backend/column_type.rs` → namespace `ColumnType` (primitive types and the
  SQLite storage-type mapping);
* `backend/db.rs`          → namespace `Db` (`query_iterate`);
* `backend/table_data.rs`  → namespace `TableData` (`insert`, the JSON branch
  of `try_update_primitive_value`);
* `backend/table.rs`       → namespace `TableNs` (`drop_surrogate_view`,
  `update_surrogate_view`, the `TableDependency` max-heap);
* `backend/column.rs`      → namespace `ColumnNs` (`create`, `move_trash`,
  `unmove_trash`, `send_metadata_list`, `set_table_column_dropdown_values`);
* `backend.rs`             → namespace `Journal` (the `Action` union and the
  `execute` / `undo` stack discipline).

A SQL table is modelled as a Lean list of rows; an SQLite transaction that the
source function never commits is modelled by an explicit `committed` flag
(rusqlite rolls an uncommitted transaction back when it is dropped).
-/

namespace StaticDB

/-- Errors of `util/error.rs`, restricted to the variants the embedded code
can produce.  `AdhocError` carries the literal message from the source;
`queryReturnedNoRows` is rusqlite's `QueryReturnedNoRows`; `outOfFuel` is an
artifact of embedding general recursion with fuel and is produced by no
source path when enough fuel is supplied. -/
inductive Err where
  | adhocError (msg : String)
  | queryReturnedNoRows
  | outOfFuel
deriving DecidableEq, Repr

instance exceptDecidableEq {ε α : Type} [DecidableEq ε] [DecidableEq α] :
    DecidableEq (Except ε α) := fun a b =>
  match a, b with
  | .ok x, .ok y =>
    if h : x = y then .isTrue (by rw [h]) else .isFalse (fun hh => h (Except.ok.inj hh))
  | .error e, .error g =>
    if h : e = g then .isTrue (by rw [h]) else .isFalse (fun hh => h (Except.error.inj hh))
  | .ok _, .error _ => .isFalse (fun hh => Except.noConfusion hh)
  | .error _, .ok _ => .isFalse (fun hh => Except.noConfusion hh)

theorem except_bind_ok {ε α β : Type} (a : α) (k : α → Except ε β) :
    (Except.ok a >>= k) = k a := rfl

theorem except_bind_error {ε α β : Type} (e : ε) (k : α → Except ε β) :
    ((Except.error e : Except ε α) >>= k) = .error e := rfl

theorem except_bind_eq_ok {ε α β : Type} {m : Except ε α} {k : α → Except ε β} {r : β}
    (h : (m >>= k) = .ok r) : ∃ a, m = .ok a ∧ k a = .ok r := by
  cases m with
  | ok a => exact ⟨a, rfl, h⟩
  | error e => exact Except.noConfusion h

/-- Every element of a list folded to a successful monadic result was itself
processed successfully by the step function at some accumulator. -/
theorem foldlM_ok_mem {ε α β : Type} {f : β → α → Except ε β} :
    ∀ {l : List α} {b r : β}, l.foldlM f b = .ok r →
      ∀ x ∈ l, ∃ acc res, f acc x = .ok res := by
  intro l
  induction l with
  | nil => intro b r _ x hx; cases hx
  | cons d ds ih =>
    intro b r h x hx
    rw [List.foldlM_cons] at h
    obtain ⟨a, ha, hrest⟩ := except_bind_eq_ok h
    rcases List.mem_cons.mp hx with hxd | hxds
    · exact ⟨b, a, hxd ▸ ha⟩
    · exact ih hrest x hxds

namespace ColumnType

/-- `column_type.rs`: the ten primitive column types (mode 0, OIDs 0–9). -/
inductive Primitive where
  | Any
  | Boolean
  | Integer
  | Number
  | Date
  | Timestamp
  | Text
  | JSON
  | File
  | Image
deriving DecidableEq, Repr

/-- `column_type.rs` `Primitive::get_sqlite_type`: the SQLite storage type
declared for a column of each primitive type. -/
def Primitive.get_sqlite_type : Primitive → String
  | .Any => "ANY"
  | .Boolean => "INTEGER"
  | .Integer => "INTEGER"
  | .Number => "REAL"
  | .Date => "INTEGER"
  | .Timestamp => "INTEGER"
  | .Text | .JSON => "TEXT"
  | .File | .Image => "BLOB"

/-- Modelled from the spec: the storage-type table asserted by the claim
(Boolean→integer, Integer→integer, Number→real, Date→integer,
Timestamp→real, Text|JSON→text, File|Image→blob, Any→any), for comparison
with `Primitive.get_sqlite_type`. -/
def claimedStorageType : Primitive → String
  | .Any => "ANY"
  | .Boolean => "INTEGER"
  | .Integer => "INTEGER"
  | .Number => "REAL"
  | .Date => "INTEGER"
  | .Timestamp => "REAL"
  | .Text | .JSON => "TEXT"
  | .File | .Image => "BLOB"

end ColumnType

namespace Db

/-- `db.rs` `query_iterate`: iterate a callback `f` over the queried rows.
The callback both mutates ambient state (it may run further statements on the
transaction and send to channels) and returns a `Result`; the source calls
`f(row);` and drops the returned `Result` on the floor, so `f` is modelled as
returning the next state together with an optional error that the loop
ignores.  After the loop the function returns `Ok(())`. -/
def query_iterate {ρ σ ε : Type} (rows : List ρ) (f : σ → ρ → σ × Option ε)
    (s : σ) : σ × Except ε Unit :=
  match rows with
  | [] => (s, .ok ())
  | row :: rest => query_iterate rest f (f s row).1

end Db

/-- C10: every error returned by the per-row callback of `db::query_iterate`
is discarded: the iteration visits every remaining row (the final state is
the fold of the callback's state effect over all rows) and the function
returns `Ok`, so the caller never observes a callback failure. -/
theorem query_iterate_discards_callback_errors {ρ σ ε : Type}
    (rows : List ρ) (f : σ → ρ → σ × Option ε) (s : σ) :
    Db.query_iterate rows f s =
      (rows.foldl (fun s row => (f s row).1) s, .ok ()) := by
  induction rows generalizing s with
  | nil => rfl
  | cons row rest ih => simp [Db.query_iterate, ih, List.foldl_cons]

namespace TableData

/-- A user-data table `TABLE<T>`, modelled as its list of rows; each row is
its integer `OID` primary key together with the remaining cell payload.  The
`OID` column is `INTEGER PRIMARY KEY`, so oids are unique (a `Nodup`
hypothesis in the theorems). -/
abbrev RowList (α : Type) := List (ℤ × α)

/-- The oids currently present in the table (`SELECT OID FROM TABLE<T>`). -/
def oids {α : Type} (rows : RowList α) : List ℤ := rows.map Prod.fst

/-- One step of the renumbering loop of `table_data.rs` `insert`:
`UPDATE TABLE<T> SET OID = OID + 1 WHERE OID = ?1`.  If oid `i + 1` already
exists the statement violates the primary key, SQLite leaves the table
unchanged and reports an error — which `db::query_iterate` discards
(see `query_iterate_discards_callback_errors`). -/
def oid_update {α : Type} (rows : RowList α) (i : ℤ) : RowList α :=
  if i ∈ oids rows ∧ (i + 1) ∈ oids rows then rows
  else rows.map (fun rp => if rp.1 = i then (i + 1, rp.2) else rp)

/-- `SELECT OID FROM TABLE<T> WHERE OID >= ?1 ORDER BY OID DESC`: the oids
that are ≥ `r`, in descending order. -/
def desc_oids {α : Type} (rows : RowList α) (r : ℤ) : List ℤ :=
  (((oids rows).toFinset.filter (fun i => r ≤ i)).sort (· ≤ ·)).reverse

/-- The renumbering pass of `insert`: apply `oid_update` to each oid ≥ `r`,
largest first, exactly as the descending cursor of the source does. -/
def shift_all {α : Type} (rows : RowList α) (r : ℤ) : RowList α :=
  (desc_oids rows r).foldl oid_update rows

/-- `table_data.rs` `insert`: insert a row before any existing row with oid
`row_oid`.  The three branches follow the source: free target oid; free
`row_oid - 1`; otherwise renumber every oid ≥ `row_oid` in descending order
and insert at `row_oid`.  `v` is the default payload of a freshly inserted
row (`INSERT INTO TABLE<T> (OID) VALUES (?1)` fills the other columns with
their defaults); the returned integer is `last_insert_rowid`. -/
def insert {α : Type} (rows : RowList α) (row_oid : ℤ) (v : α) :
    RowList α × ℤ :=
  if row_oid ∈ oids rows then
    if (row_oid - 1) ∈ oids rows then
      (shift_all rows row_oid ++ [(row_oid, v)], row_oid)
    else
      (rows ++ [(row_oid - 1, v)], row_oid - 1)
  else
    (rows ++ [(row_oid, v)], row_oid)

theorem oid_update_of_free {α : Type} (rows : RowList α) (i : ℤ)
    (h : (i + 1) ∉ oids rows) :
    oid_update rows i = rows.map (fun rp => if rp.1 = i then (i + 1, rp.2) else rp) := by
  simp [oid_update, h]

/-- Folding the single-oid update over a strictly decreasing list `l` of
present oids whose successors never lie outside `l` bumps exactly the rows
whose oid is in `l`.  This is the heart of the descending-order renumbering:
processed largest-first, no intermediate primary-key collision occurs. -/
theorem foldl_oid_update {α : Type} (l : List ℤ) :
    ∀ rows : RowList α,
      l.Pairwise (fun a b => b < a) →
      (oids rows).Nodup →
      (∀ i ∈ l, i ∈ oids rows) →
      (∀ i ∈ l, (i + 1) ∈ oids rows → (i + 1) ∈ l) →
      l.foldl oid_update rows =
        rows.map (fun rp => if rp.1 ∈ l then (rp.1 + 1, rp.2) else rp) := by
  induction l with
  | nil =>
    intro rows _ _ _ _
    simp
  | cons m l' ih =>
    intro rows hpair hnd hmem hsucc
    have hm : m ∈ oids rows := hmem m (by simp)
    have hlt : ∀ b ∈ l', b < m := by
      intro b hb
      exact (List.pairwise_cons.mp hpair).1 b hb
    -- the successor of the head is not present: it would have to be in the
    -- tail, which contains only smaller elements
    have hm1 : (m + 1) ∉ oids rows := by
      intro hmem1
      have := hsucc m (by simp) hmem1
      rcases List.mem_cons.mp this with h | h
      · omega
      · have := hlt _ h; omega
    have hstep : oid_update rows m =
        rows.map (fun rp => if rp.1 = m then (m + 1, rp.2) else rp) :=
      oid_update_of_free rows m hm1
    set rows₁ := rows.map (fun rp => if rp.1 = m then (m + 1, rp.2) else rp) with hrows₁
    have hfst : oids rows₁ = (oids rows).map (fun o => if o = m then m + 1 else o) := by
      rw [hrows₁]
      show (rows.map _).map Prod.fst = (rows.map Prod.fst).map _
      rw [List.map_map, List.map_map]
      apply List.map_congr_left
      intro rp _
      by_cases h : rp.1 = m <;> simp [Function.comp_def, h]
    have hnd₁ : (oids rows₁).Nodup := by
      rw [hfst]
      apply List.Nodup.map_on _ hnd
      intro x hx y hy hxy
      by_cases hxm : x = m <;> by_cases hym : y = m
      · rw [hxm, hym]
      · exfalso; apply hm1
        rw [hxm] at hxy
        simp [hym] at hxy
        rw [hxy]; exact hy
      · exfalso; apply hm1
        rw [hym] at hxy
        simp [hxm] at hxy
        rw [← hxy]; exact hx
      · simpa [hxm, hym] using hxy
    have hmem₁ : ∀ i ∈ l', i ∈ oids rows₁ := by
      intro i hi
      rw [hfst]
      have him : i ≠ m := by have := hlt i hi; omega
      exact List.mem_map.mpr ⟨i, hmem i (by simp [hi]), by simp [him]⟩
    have hsucc₁ : ∀ i ∈ l', (i + 1) ∈ oids rows₁ → (i + 1) ∈ l' := by
      intro i hi hmem1
      rw [hfst] at hmem1
      rcases List.mem_map.mp hmem1 with ⟨o, ho, heq⟩
      by_cases hom : o = m
      · -- then i + 1 = m + 1, i = m, impossible since i < m
        rw [if_pos hom] at heq
        have := hlt i hi
        omega
      · rw [if_neg hom] at heq
        subst heq
        have := hsucc i (by simp [hi]) ho
        rcases List.mem_cons.mp this with h | h
        · exact absurd h hom
        · exact h
    have hpair' : l'.Pairwise (fun a b => b < a) := (List.pairwise_cons.mp hpair).2
    calc (m :: l').foldl oid_update rows
        = l'.foldl oid_update rows₁ := by rw [List.foldl_cons, hstep]
      _ = rows₁.map (fun rp => if rp.1 ∈ l' then (rp.1 + 1, rp.2) else rp) :=
          ih rows₁ hpair' hnd₁ hmem₁ hsucc₁
      _ = rows.map (fun rp => if rp.1 ∈ m :: l' then (rp.1 + 1, rp.2) else rp) := by
          rw [hrows₁, List.map_map]
          apply List.map_congr_left
          intro rp _
          by_cases hrm : rp.1 = m
          · have hm1l : (m + 1) ∉ l' := by
              intro h; have := hlt _ h; omega
            simp [Function.comp_def, hrm, hm1l]
          · simp [Function.comp_def, hrm, List.mem_cons]

theorem mem_desc_oids {α : Type} (rows : RowList α) (r i : ℤ) :
    i ∈ desc_oids rows r ↔ i ∈ oids rows ∧ r ≤ i := by
  simp [desc_oids, Finset.mem_sort, Finset.mem_filter, List.mem_toFinset]

theorem desc_oids_pairwise {α : Type} (rows : RowList α) (r : ℤ) :
    (desc_oids rows r).Pairwise (fun a b => b < a) := by
  rw [desc_oids, List.pairwise_reverse]
  exact Finset.sort_sorted_lt _

/-- The renumbering pass adds one to every oid ≥ `r` and leaves the other
rows untouched. -/
theorem shift_all_eq {α : Type} (rows : RowList α) (r : ℤ)
    (hnd : (oids rows).Nodup) :
    shift_all rows r =
      rows.map (fun rp => if r ≤ rp.1 then (rp.1 + 1, rp.2) else rp) := by
  rw [shift_all]
  rw [foldl_oid_update (desc_oids rows r) rows (desc_oids_pairwise rows r) hnd
    (fun i hi => ((mem_desc_oids rows r i).mp hi).1)
    (fun i hi hmem => (mem_desc_oids rows r (i + 1)).mpr
      ⟨hmem, by have := ((mem_desc_oids rows r i).mp hi).2; omega⟩)]
  apply List.map_congr_left
  intro rp hrp
  have : rp.1 ∈ oids rows := List.mem_map.mpr ⟨rp, hrp, rfl⟩
  by_cases h : r ≤ rp.1
  · simp [(mem_desc_oids rows r rp.1).mpr ⟨this, h⟩, h]
  · have : rp.1 ∉ desc_oids rows r := by
      rw [mem_desc_oids]; omega
    simp [this, h]

end TableData

/-- C2: `insert(T, r)` inserts the new row with oid `r` when that oid is
free; otherwise with oid `r − 1` when that one is free; otherwise every
pre-existing row with oid ≥ `r` has its oid incremented by one (the
descending renumbering of the source) and the new row gets oid `r`. -/
theorem insert_row_cases {α : Type} (rows : TableData.RowList α) (r : ℤ) (v : α)
    (hnd : (TableData.oids rows).Nodup) :
    (r ∉ TableData.oids rows ∧
      TableData.insert rows r v = (rows ++ [(r, v)], r))
    ∨ (r ∈ TableData.oids rows ∧ (r - 1) ∉ TableData.oids rows ∧
      TableData.insert rows r v = (rows ++ [(r - 1, v)], r - 1))
    ∨ (r ∈ TableData.oids rows ∧ (r - 1) ∈ TableData.oids rows ∧
      TableData.insert rows r v =
        (rows.map (fun rp => if r ≤ rp.1 then (rp.1 + 1, rp.2) else rp)
          ++ [(r, v)], r)) := by
  by_cases hr : r ∈ TableData.oids rows
  · by_cases hr1 : (r - 1) ∈ TableData.oids rows
    · refine Or.inr (Or.inr ⟨hr, hr1, ?_⟩)
      rw [TableData.insert, if_pos hr, if_pos hr1,
        TableData.shift_all_eq rows r hnd]
    · exact Or.inr (Or.inl ⟨hr, hr1, by rw [TableData.insert, if_pos hr, if_neg hr1]⟩)
  · exact Or.inl ⟨hr, by rw [TableData.insert, if_neg hr]⟩

/-- Witness for `insert_row_cases`: a table holding rows with oids 1 and 2,
insertion target 2 (both 2 and 1 taken, so the renumbering branch fires). -/
theorem insert_row_cases_witness :
    ((2 : ℤ) ∉ TableData.oids [((1 : ℤ), (0 : ℤ)), (2, 0)] ∧
      TableData.insert [((1 : ℤ), (0 : ℤ)), (2, 0)] 2 7 =
        ([((1 : ℤ), (0 : ℤ)), (2, 0)] ++ [(2, 7)], 2))
    ∨ ((2 : ℤ) ∈ TableData.oids [((1 : ℤ), (0 : ℤ)), (2, 0)] ∧
      (2 - 1 : ℤ) ∉ TableData.oids [((1 : ℤ), (0 : ℤ)), (2, 0)] ∧
      TableData.insert [((1 : ℤ), (0 : ℤ)), (2, 0)] 2 7 =
        ([((1 : ℤ), (0 : ℤ)), (2, 0)] ++ [(2 - 1, 7)], 2 - 1))
    ∨ ((2 : ℤ) ∈ TableData.oids [((1 : ℤ), (0 : ℤ)), (2, 0)] ∧
      (2 - 1 : ℤ) ∈ TableData.oids [((1 : ℤ), (0 : ℤ)), (2, 0)] ∧
      TableData.insert [((1 : ℤ), (0 : ℤ)), (2, 0)] 2 7 =
        ([((1 : ℤ), (0 : ℤ)), (2, 0)].map
            (fun rp => if 2 ≤ rp.1 then (rp.1 + 1, rp.2) else rp)
          ++ [(2, 7)], 2)) :=
  insert_row_cases [((1 : ℤ), (0 : ℤ)), (2, 0)] 2 7 (by decide)

namespace ColumnNs

/-- One row of `METADATA_TABLE_COLUMN`, restricted to the fields the claims
observe (`COLUMN_CSS_STYLE`, the type fields and the flags take no part in
any ordering/undo behaviour proved here and are omitted). -/
structure ColumnRow where
  oid : ℤ
  table_oid : ℤ
  name : String
  column_ordering : ℤ
  trash : Bool
deriving DecidableEq, Repr

/-- SQLite rowid allocation for `METADATA_TABLE_COLUMN`: the largest oid in
use (0 when none are positive), so that `last_insert_rowid` of a default
insert is this plus one. -/
def maxColumnOid (cols : List ColumnRow) : ℤ :=
  (cols.map (·.oid)).foldl max 0

/-- The per-row effect of the ordering shift in `column.rs` `create`: a
column of the target table whose ordering is ≥ `o` is shifted right by one,
any other column is left alone. -/
def shiftOne (table_oid o : ℤ) (c : ColumnRow) : ColumnRow :=
  if c.table_oid = table_oid ∧ o ≤ c.column_ordering then
    { c with column_ordering := c.column_ordering + 1 }
  else c

/-- `column.rs` `create`, branch `Some(o)`:
`UPDATE METADATA_TABLE_COLUMN SET COLUMN_ORDERING = COLUMN_ORDERING + 1
WHERE TABLE_OID = ?1 AND COLUMN_ORDERING >= ?2` — note that the statement
has no `TRASH` filter. -/
def shiftOrderings (cols : List ColumnRow) (table_oid o : ℤ) : List ColumnRow :=
  cols.map (shiftOne table_oid o)

/-- `column.rs` `create`, branch `None`:
`SELECT COALESCE(MAX(COLUMN_ORDERING), 0) AS NEW_COLUMN_ORDERING FROM
METADATA_TABLE_COLUMN WHERE TABLE_OID = ?1` — the value is used as the new
column's ordering as returned, without any increment. -/
def coalesceMaxOrdering (cols : List ColumnRow) (table_oid : ℤ) : ℤ :=
  match (cols.filter (fun c => c.table_oid = table_oid)).map (·.column_ordering) with
  | [] => 0
  | x :: xs => xs.foldl max x

/-- `column.rs` `create`: the effect on `METADATA_TABLE_COLUMN` of creating a
column (the physical `ALTER TABLE`, type side-state and surrogate-view
rebuild touch no column metadata).  Returns the updated relation and the new
column's oid (`last_insert_rowid`). -/
def create (cols : List ColumnRow) (table_oid : ℤ) (column_name : String)
    (column_ordering : Option ℤ) : List ColumnRow × ℤ :=
  let (cols, o) :=
    match column_ordering with
    | some o => (shiftOrderings cols table_oid o, o)
    | none => (cols, coalesceMaxOrdering cols table_oid)
  let newOid := maxColumnOid cols + 1
  (cols ++ [⟨newOid, table_oid, column_name, o, false⟩], newOid)

/-- `column.rs` `move_trash`:
`UPDATE METADATA_TABLE_COLUMN SET TRASH = 1 WHERE OID = ?1`. -/
def move_trash (cols : List ColumnRow) (column_oid : ℤ) : List ColumnRow :=
  cols.map (fun c => if c.oid = column_oid then { c with trash := true } else c)

/-- `column.rs` `unmove_trash`:
`UPDATE METADATA_TABLE_COLUMN SET TRASH = 0 WHERE OID = ?1`. -/
def unmove_trash (cols : List ColumnRow) (column_oid : ℤ) : List ColumnRow :=
  cols.map (fun c => if c.oid = column_oid then { c with trash := false } else c)

/-- Insertion into a list sorted by `column_ordering` (ascending). -/
def insertByOrdering (c : ColumnRow) : List ColumnRow → List ColumnRow
  | [] => [c]
  | d :: ds =>
    if c.column_ordering ≤ d.column_ordering then c :: d :: ds
    else d :: insertByOrdering c ds

/-- `ORDER BY c.COLUMN_ORDERING ASC` (insertion sort; SQLite makes no
promise about the relative order of equal keys, and the theorems below only
use inputs where the following deterministic choice is forced). -/
def sortByOrdering : List ColumnRow → List ColumnRow
  | [] => []
  | c :: cs => insertByOrdering c (sortByOrdering cs)

/-- `column.rs` `send_metadata_list`, which backs the `get_table_column_list`
command: the non-trashed columns of the table ordered by `COLUMN_ORDERING`,
each projected to its streamed metadata (here oid, name and ordering). -/
def send_metadata_list (cols : List ColumnRow) (table_oid : ℤ) :
    List (ℤ × String × ℤ) :=
  (sortByOrdering (cols.filter (fun c => c.table_oid = table_oid ∧ c.trash = false))).map
    (fun c => (c.oid, c.name, c.column_ordering))

/-- Look a column up by its oid. -/
def findColumn (cols : List ColumnRow) (oid : ℤ) : Option ColumnRow :=
  cols.find? (fun c => c.oid = oid)

theorem shiftOne_oid (table_oid o : ℤ) (c : ColumnRow) :
    (shiftOne table_oid o c).oid = c.oid := by
  unfold shiftOne
  by_cases h : c.table_oid = table_oid ∧ o ≤ c.column_ordering <;> simp [h]

theorem find?_shiftOrderings (T o : ℤ) (cols : List ColumnRow) (c : ColumnRow)
    (hc : c ∈ cols) (hnd : (cols.map (·.oid)).Nodup) :
    (shiftOrderings cols T o).find? (fun d => d.oid = c.oid) =
      some (shiftOne T o c) := by
  induction cols with
  | nil => cases hc
  | cons d ds ih =>
    rw [List.map_cons] at hnd
    obtain ⟨hdnotin, hnd'⟩ := List.nodup_cons.mp hnd
    rw [shiftOrderings, List.map_cons]
    rcases List.mem_cons.mp hc with hd | hd
    · subst hd
      apply List.find?_cons_of_pos
      simp [shiftOne_oid]
    · have hne : d.oid ≠ c.oid := fun he => hdnotin (he ▸ List.mem_map.mpr ⟨c, hd, rfl⟩)
      simpa [shiftOrderings, shiftOne_oid, hne] using ih hd hnd'

end ColumnNs

namespace TableNs

/-- `table.rs` `TableDependency`: ordered by `dependency_depth` alone (the
`Ord` implementation compares only that field). -/
structure TableDependency where
  dependency_depth : ℤ
  table_oid : ℤ
deriving DecidableEq, Repr

/-- The maximum (by `dependency_depth`) of a non-empty list, as popped by
the `BinaryHeap` of `update_surrogate_view`.  Rust's `BinaryHeap` breaks
ties between equal depths arbitrarily; this model keeps the earlier element,
and the theorems below only use pairwise-distinct depths, where every
tie-break yields the same drain order. -/
def maxDep (x : TableDependency) (xs : List TableDependency) : TableDependency :=
  xs.foldl (fun b y => if b.dependency_depth < y.dependency_depth then y else b) x

/-- Draining the `BinaryHeap`: repeatedly pop a maximal-depth element.  The
fuel is the number of pops, `l.length` at the top call. -/
def heapDrain : ℕ → List TableDependency → List TableDependency
  | 0, _ => []
  | _ + 1, [] => []
  | n + 1, x :: xs =>
    let m := maxDep x xs
    m :: heapDrain n ((x :: xs).erase m)

/-- `HashMap::get_mut` + `insert` merge step of `drop_surrogate_view`: a
dependency found again keeps the maximum of the recorded and the new depth,
a new one is appended. -/
def updateFound (found : List (ℤ × ℤ)) (k d : ℤ) : List (ℤ × ℤ) :=
  if found.any (fun p => p.1 = k) then
    found.map (fun p => if p.1 = k then (p.1, max p.2 d) else p)
  else found ++ [(k, d)]

/-- The body of the dependents loop of `drop_surrogate_view`: a dependent
equal to the table currently being expanded is skipped ("Prevent infinite
recursion in case of self-referencing tables"); a dependent on the walk
chain aborts with the schema-cycle error; any other dependent is recursed
into (`recCall`) and its dependencies merged at depth + 1. -/
def dropStep (recCall : ℤ → Except Err (List (ℤ × ℤ))) (above : List ℤ)
    (table_oid : ℤ) (found : List (ℤ × ℤ)) (dep : ℤ) : Except Err (List (ℤ × ℤ)) :=
  if dep = table_oid then
    .ok found
  else if dep ∈ above then
    .error (.adhocError
      "There is an infinite loop of primary keys that reference each other!")
  else
    (recCall dep).map
      (fun sub => sub.foldl (fun f kd => updateFound f kd.1 (kd.2 + 1)) found)

/-- `table.rs` `drop_surrogate_view`: walk the edge "some table has a column
with `TYPE_OID = t` and `IS_PRIMARY_KEY = 1`" (given as `deps t`, the
`TABLE_OID`s returned by the query), collecting each reachable dependent
with its maximal depth from the root and dropping its surrogate view.  The
chain passed to the loop is the caller's chain with the current table
pushed.  The `DROP VIEW` statements do not touch the metadata and are not
modelled.  Recursion is fuelled; `outOfFuel` is never returned when the
fuel exceeds the walk depth. -/
def drop_surrogate_view (deps : ℤ → List ℤ) : ℕ → List ℤ → ℤ →
    Except Err (List (ℤ × ℤ))
  | 0, _, _ => .error .outOfFuel
  | fuel + 1, above_table_oid, table_oid =>
    (deps table_oid).foldlM
      (dropStep (drop_surrogate_view deps fuel (above_table_oid ++ [table_oid]))
        (above_table_oid ++ [table_oid]) table_oid)
      [(table_oid, 0)]

/-- `table.rs` `update_surrogate_view`: drop the dependency cone, push every
`(table, depth)` pair onto a max-heap keyed by depth, then pop repeatedly,
re-creating each popped table's surrogate view.  The returned list is the
order in which `create_surrogate_view` is called. -/
def update_surrogate_view (deps : ℤ → List ℤ) (fuel : ℕ) (table_oid : ℤ) :
    Except Err (List ℤ) :=
  (drop_surrogate_view deps fuel [] table_oid).map
    (fun found =>
      let heapInput := found.map (fun p => TableDependency.mk p.2 p.1)
      (heapDrain heapInput.length heapInput).map (·.table_oid))

/-- Dependency graph for C3: table 11 has a primary-key Reference column
targeting table 10 and nothing else; so 11 depends on 10 at depth 1. -/
def chainDeps : ℤ → List ℤ := fun t => if t = 10 then [11] else []

/-- Dependency graph for C4's counterexample: table 10 has a primary-key
Reference column targeting table 10 itself — a self-loop. -/
def selfLoopDeps : ℤ → List ℤ := fun t => if t = 10 then [10] else []

/-- Reachability along the dependency edges: `Reaches deps x y` when `y` can
be reached from `x` by following "is a dependent of" edges (zero or more). -/
inductive Reaches (deps : ℤ → List ℤ) : ℤ → ℤ → Prop where
  | refl (x : ℤ) : Reaches deps x x
  | step {x y z : ℤ} : y ∈ deps x → Reaches deps y z → Reaches deps x z

/-- Reachability using only edges between distinct tables (self-loop edges
excised). -/
inductive ReachesD (deps : ℤ → List ℤ) : ℤ → ℤ → Prop where
  | refl (x : ℤ) : ReachesD deps x x
  | step {x y z : ℤ} : y ∈ deps x → y ≠ x → ReachesD deps y z → ReachesD deps x z

/-- Self-loop steps contribute nothing to reachability. -/
theorem reaches_to_reachesD {deps : ℤ → List ℤ} {x y : ℤ}
    (h : Reaches deps x y) : ReachesD deps x y := by
  induction h with
  | refl x => exact .refl x
  | @step x y z hmem _ ih =>
    by_cases hyx : y = x
    · rw [hyx] at ih; exact ih
    · exact .step hmem hyx ih

/-- If the walk at `t` succeeded, then every non-self dependent of `t` is
outside the pushed chain and its own walk (one fuel lower, on the pushed
chain) succeeded as well. -/
theorem drop_ok_edge {deps : ℤ → List ℤ} {fuel : ℕ} {above : List ℤ} {t : ℤ}
    {found : List (ℤ × ℤ)} (h : drop_surrogate_view deps fuel above t = .ok found)
    {dep : ℤ} (hdep : dep ∈ deps t) (hne : dep ≠ t) :
    dep ∉ above ++ [t] ∧
      ∃ sub, drop_surrogate_view deps (fuel - 1) (above ++ [t]) dep = .ok sub := by
  cases fuel with
  | zero =>
    rw [drop_surrogate_view] at h
    exact Except.noConfusion h
  | succ fuel =>
    rw [drop_surrogate_view] at h
    obtain ⟨acc, res, hstep⟩ := foldlM_ok_mem h dep hdep
    rw [dropStep, if_neg hne] at hstep
    by_cases hmem : dep ∈ above ++ [t]
    · rw [if_pos hmem] at hstep
      exact Except.noConfusion hstep
    · rw [if_neg hmem] at hstep
      refine ⟨hmem, ?_⟩
      cases hdrop : drop_surrogate_view deps fuel (above ++ [t]) dep with
      | ok sub => exact ⟨sub, by rw [Nat.succ_sub_one]; exact hdrop⟩
      | error e =>
        rw [hdrop] at hstep
        exact Except.noConfusion hstep

/-- Walking a distinct-edge path from a successfully dropped table: the
endpoint is either the start itself or lies outside the starting chain, and
its own walk succeeded at some fuel and chain. -/
theorem walk_ok {deps : ℤ → List ℤ} {x y : ℤ} (hreach : ReachesD deps x y) :
    ∀ {fuel : ℕ} {c : List ℤ} {f : List (ℤ × ℤ)},
      drop_surrogate_view deps fuel c x = .ok f →
      (y = x ∨ y ∉ c) ∧
        ∃ fuel' c' f', drop_surrogate_view deps fuel' c' y = .ok f' := by
  induction hreach with
  | refl x =>
    intro fuel c f h
    exact ⟨Or.inl rfl, fuel, c, f, h⟩
  | @step x y z hmem hne _ ih =>
    intro fuel c f h
    obtain ⟨hnotin, sub, hsub⟩ := drop_ok_edge h hmem hne
    obtain ⟨hyz, hok⟩ := ih hsub
    refine ⟨Or.inr ?_, hok⟩
    rcases hyz with rfl | hz
    · exact fun hzc => hnotin (List.mem_append.mpr (Or.inl hzc))
    · exact fun hzc => hz (List.mem_append.mpr (Or.inl hzc))

/-- A successful top-level walk implies that no cycle of length ≥ 2 is
reachable from the root: no reachable table `u` has a dependent `v ≠ u`
from which `u` is reachable again. -/
theorem drop_ok_no_cycle {deps : ℤ → List ℤ} {fuel : ℕ} {t : ℤ}
    {found : List (ℤ × ℤ)} (hok : drop_surrogate_view deps fuel [] t = .ok found)
    {u v : ℤ} (htu : Reaches deps t u) (hv : v ∈ deps u) (hne : v ≠ u) :
    ¬ Reaches deps v u := by
  intro hvu
  obtain ⟨-, F1, C1, f1, hu⟩ := walk_ok (reaches_to_reachesD htu) hok
  obtain ⟨-, sub, hsub⟩ := drop_ok_edge hu hv hne
  obtain ⟨huv, -⟩ := walk_ok (reaches_to_reachesD hvu) hsub
  rcases huv with rfl | hnot
  · exact hne rfl
  · exact hnot (List.mem_append.mpr (Or.inr (List.mem_singleton.mpr rfl)))

/-- Every result of the walk is a success, fuel exhaustion, or the
schema-cycle error — the only error sites in the source are the chain check
and (in the embedding) the fuel guard. -/
theorem drop_shape (deps : ℤ → List ℤ) : ∀ (fuel : ℕ) (above : List ℤ) (t : ℤ),
    (∃ f, drop_surrogate_view deps fuel above t = .ok f)
    ∨ drop_surrogate_view deps fuel above t = .error .outOfFuel
    ∨ drop_surrogate_view deps fuel above t =
        .error (.adhocError
          "There is an infinite loop of primary keys that reference each other!") := by
  intro fuel
  induction fuel with
  | zero =>
    intro above t
    exact Or.inr (Or.inl rfl)
  | succ fuel ih =>
    intro above t
    have main : ∀ (l : List ℤ) (found : List (ℤ × ℤ)),
        (∃ f, l.foldlM
          (dropStep (drop_surrogate_view deps fuel (above ++ [t])) (above ++ [t]) t)
          found = .ok f)
        ∨ l.foldlM
            (dropStep (drop_surrogate_view deps fuel (above ++ [t])) (above ++ [t]) t)
            found = .error .outOfFuel
        ∨ l.foldlM
            (dropStep (drop_surrogate_view deps fuel (above ++ [t])) (above ++ [t]) t)
            found = .error (.adhocError
              "There is an infinite loop of primary keys that reference each other!") := by
      intro l
      induction l with
      | nil => intro found; exact Or.inl ⟨found, rfl⟩
      | cons d ds ihl =>
        intro found
        rw [List.foldlM_cons]
        by_cases hdt : d = t
        · have hstep : dropStep (drop_surrogate_view deps fuel (above ++ [t]))
              (above ++ [t]) t found d = .ok found := by
            simp [dropStep, hdt]
          rw [hstep, except_bind_ok]
          exact ihl found
        · by_cases hdab : d ∈ above ++ [t]
          · have hstep : dropStep (drop_surrogate_view deps fuel (above ++ [t]))
                (above ++ [t]) t found d = .error (.adhocError
                  "There is an infinite loop of primary keys that reference each other!") := by
              simp [dropStep, hdt, hdab]
            rw [hstep, except_bind_error]
            exact Or.inr (Or.inr rfl)
          · rcases ih (above ++ [t]) d with ⟨f, hf⟩ | hf | hf
            · have hstep : dropStep (drop_surrogate_view deps fuel (above ++ [t]))
                  (above ++ [t]) t found d =
                  .ok (f.foldl (fun acc kd => updateFound acc kd.1 (kd.2 + 1)) found) := by
                simp [dropStep, hdt, hdab, hf, Except.map]
              rw [hstep, except_bind_ok]
              exact ihl _
            · have hstep : dropStep (drop_surrogate_view deps fuel (above ++ [t]))
                  (above ++ [t]) t found d = .error .outOfFuel := by
                simp [dropStep, hdt, hdab, hf, Except.map]
              rw [hstep, except_bind_error]
              exact Or.inr (Or.inl rfl)
            · have hstep : dropStep (drop_surrogate_view deps fuel (above ++ [t]))
                  (above ++ [t]) t found d = .error (.adhocError
                    "There is an infinite loop of primary keys that reference each other!") := by
                simp [dropStep, hdt, hdab, hf, Except.map]
              rw [hstep, except_bind_error]
              exact Or.inr (Or.inr rfl)
    rw [drop_surrogate_view]
    exact main (deps t) [(t, 0)]

/-- The walk never looks at a self-loop edge: its result on any graph equals
its result on the graph with every self-edge removed. -/
theorem drop_filter_self (deps : ℤ → List ℤ) : ∀ (fuel : ℕ) (above : List ℤ) (t : ℤ),
    drop_surrogate_view deps fuel above t =
      drop_surrogate_view (fun x => (deps x).filter (fun y => decide (y ≠ x)))
        fuel above t := by
  intro fuel
  induction fuel with
  | zero => intro above t; rfl
  | succ fuel ih =>
    intro above t
    have main : ∀ (l : List ℤ) (found : List (ℤ × ℤ)),
        l.foldlM
          (dropStep (drop_surrogate_view deps fuel (above ++ [t])) (above ++ [t]) t)
          found =
        (l.filter (fun y => decide (y ≠ t))).foldlM
          (dropStep
            (drop_surrogate_view (fun x => (deps x).filter (fun y => decide (y ≠ x)))
              fuel (above ++ [t]))
            (above ++ [t]) t)
          found := by
      intro l
      induction l with
      | nil => intro found; rfl
      | cons d ds ihl =>
        intro found
        by_cases hdt : d = t
        · rw [List.foldlM_cons]
          have hstep : dropStep (drop_surrogate_view deps fuel (above ++ [t]))
              (above ++ [t]) t found d = .ok found := by
            simp [dropStep, hdt]
          rw [hstep, except_bind_ok, List.filter_cons_of_neg (by simp [hdt])]
          exact ihl found
        · rw [List.foldlM_cons, List.filter_cons_of_pos (by simp [hdt]), List.foldlM_cons]
          have hstepeq : dropStep (drop_surrogate_view deps fuel (above ++ [t]))
              (above ++ [t]) t found d =
              dropStep
                (drop_surrogate_view (fun x => (deps x).filter (fun y => decide (y ≠ x)))
                  fuel (above ++ [t]))
                (above ++ [t]) t found d := by
            rw [dropStep, dropStep, if_neg hdt, if_neg hdt]
            by_cases hmem : d ∈ above ++ [t]
            · rw [if_pos hmem, if_pos hmem]
            · rw [if_neg hmem, if_neg hmem, ih (above ++ [t]) d]
          rw [hstepeq]
          cases hv : dropStep
              (drop_surrogate_view (fun x => (deps x).filter (fun y => decide (y ≠ x)))
                fuel (above ++ [t]))
              (above ++ [t]) t found d with
          | ok b => rw [except_bind_ok, except_bind_ok]; exact ihl b
          | error e => rw [except_bind_error, except_bind_error]
    rw [drop_surrogate_view, drop_surrogate_view]
    exact main (deps t) [(t, 0)]

/-- The two-table cycle 1 ↔ 2, used by the C4 witness. -/
def twoCycleDeps : ℤ → List ℤ :=
  fun t => if t = 1 then [2] else if t = 2 then [1] else []

end TableNs

/-- C3: rebuilding the surrogate-view graph rooted at table 10, with table
11 a dependent at depth 1, re-creates the views in the order `[11, 10]`: the
max-heap pops the **deepest** dependent first, so the root (depth 0) is
re-created last — the descending order, not the ascending order the claim
states (the claim requires `[10, 11]`, root first). -/
theorem rebuild_order_descending :
    TableNs.update_surrogate_view TableNs.chainDeps 3 10 = .ok [11, 10]
    ∧ (Except.ok [11, 10] : Except Err (List ℤ)) ≠ .ok [10, 11] := by
  constructor
  · rfl
  · simp

/-- C4 (counterexample): on the self-loop graph, the traversal expanding
table 10 (walk chain `[10]`) meets the dependent 10, which is already on the
chain; the claim says this must fail with `SchemaCycle`, but the source
skips a dependent equal to the current table, returns `Ok` and leaves the
cyclic primary-key edge in place. -/
theorem self_loop_accepted :
    (10 : ℤ) ∈ TableNs.selfLoopDeps 10
    ∧ TableNs.drop_surrogate_view TableNs.selfLoopDeps 3 [] 10 = .ok [(10, 0)] := by
  constructor
  · decide
  · rfl

/-- C4 (amended): the chain check of `drop_surrogate_view` rejects every
cycle of length ≥ 2 reachable from the edited table, but is blind to
self-loops.  Precisely, for every dependency graph `deps`: (i) whenever the
walk rooted at `t` succeeds, no table `u` reachable from `t` has a dependent
`v ≠ u` from which `u` is reachable back — no reachable ≥ 2-cycle exists;
(ii) whenever such a cycle does exist, the walk fails, and unless the fuel
of the embedding is exhausted the error is exactly the source's
schema-cycle error, so the surrounding transaction rolls the edit back;
(iii) the walk computes the same result on `deps` as on `deps` with every
self-loop edge removed — a self-referencing primary-key column is skipped
without error at any point of any walk, so self-loops persist. -/
theorem cycle_check_skips_self_loops (deps : ℤ → List ℤ) :
    (∀ (fuel : ℕ) (t : ℤ) (found : List (ℤ × ℤ)) (u v : ℤ),
      TableNs.drop_surrogate_view deps fuel [] t = .ok found →
      TableNs.Reaches deps t u → v ∈ deps u → v ≠ u →
      ¬ TableNs.Reaches deps v u)
    ∧ (∀ (fuel : ℕ) (t u v : ℤ),
      TableNs.Reaches deps t u → v ∈ deps u → v ≠ u →
      TableNs.Reaches deps v u →
      TableNs.drop_surrogate_view deps fuel [] t ≠ .error .outOfFuel →
      TableNs.drop_surrogate_view deps fuel [] t =
        .error (.adhocError
          "There is an infinite loop of primary keys that reference each other!"))
    ∧ (∀ (fuel : ℕ) (above : List ℤ) (t : ℤ),
      TableNs.drop_surrogate_view deps fuel above t =
        TableNs.drop_surrogate_view
          (fun x => (deps x).filter (fun y => decide (y ≠ x))) fuel above t) := by
  refine ⟨?_, ?_, TableNs.drop_filter_self deps⟩
  · intro fuel t found u v hok htu hv hne
    exact TableNs.drop_ok_no_cycle hok htu hv hne
  · intro fuel t u v htu hv hne hvu hfuel
    rcases TableNs.drop_shape deps fuel [] t with ⟨f, hf⟩ | hf | hf
    · exact absurd hvu (TableNs.drop_ok_no_cycle hf htu hv hne)
    · exact absurd hf hfuel
    · exact hf

/-- Witness for `cycle_check_skips_self_loops`, on the two-table cycle
1 ↔ 2: part (ii) applied with `t = u = 1`, `v = 2` yields the concrete
schema-cycle error, and part (iii) applied at the self-loop graph of the C4
counterexample reproduces its successful run on the filtered graph. -/
theorem cycle_check_skips_self_loops_witness :
    TableNs.drop_surrogate_view TableNs.twoCycleDeps 2 [] 1 =
      .error (.adhocError
        "There is an infinite loop of primary keys that reference each other!")
    ∧ TableNs.drop_surrogate_view TableNs.selfLoopDeps 3 [] 10 =
      TableNs.drop_surrogate_view
        (fun x => (TableNs.selfLoopDeps x).filter (fun y => decide (y ≠ x))) 3 [] 10 :=
  ⟨(cycle_check_skips_self_loops TableNs.twoCycleDeps).2.1 2 1 1 2
      (TableNs.Reaches.refl 1)
      (by rw [show TableNs.twoCycleDeps 1 = [2] from rfl]; exact List.mem_singleton.mpr rfl)
      (by decide)
      (TableNs.Reaches.step
        (by rw [show TableNs.twoCycleDeps 2 = [1] from rfl]; exact List.mem_singleton.mpr rfl)
        (TableNs.Reaches.refl 1))
      (by decide),
    (cycle_check_skips_self_loops TableNs.selfLoopDeps).2.2 3 [] 10⟩

mutual

/-- A JSON value, for the spec-side notion of a well-formed JSON document
(`JsonSeq` and `JsonObj` are the spines of arrays and objects). -/
inductive JsonValue : Type where
  | null : JsonValue
  | boolean : Bool → JsonValue
  | number : ℤ → JsonValue
  | string : String → JsonValue
  | arr : JsonSeq → JsonValue
  | obj : JsonObj → JsonValue

/-- Array elements of a `JsonValue`. -/
inductive JsonSeq : Type where
  | nil : JsonSeq
  | cons : JsonValue → JsonSeq → JsonSeq

/-- Object members of a `JsonValue`. -/
inductive JsonObj : Type where
  | nil : JsonObj
  | cons : String → JsonValue → JsonObj → JsonObj

end

/-- One hexadecimal digit. -/
def hexDigit (n : ℕ) : String :=
  (["0", "1", "2", "3", "4", "5", "6", "7", "8", "9", "a", "b", "c", "d", "e", "f"]).getD n "0"

/-- JSON string escaping of a single character. -/
def escapeJsonChar (c : Char) : String :=
  if c = '"' then "\\\""
  else if c = '\\' then "\\\\"
  else if c.toNat < 32 then "\\u00" ++ hexDigit (c.toNat / 16) ++ hexDigit (c.toNat % 16)
  else String.singleton c

/-- JSON rendering of a string literal, quotes included. -/
def renderJsonString (s : String) : String :=
  "\"" ++ (s.data.map escapeJsonChar).foldl (· ++ ·) "" ++ "\""

mutual

/-- Modelled from the spec: "well-formed JSON" (§4.6 / §8 property 7).  The
renderers print each `JsonValue` as a standard JSON document (no surrounding
whitespace, strings escaped), so a string is well-formed JSON whenever it is
the rendering of some value. -/
def renderJson : JsonValue → String
  | .null => "null"
  | .boolean true => "true"
  | .boolean false => "false"
  | .number n => toString n
  | .string s => renderJsonString s
  | .arr l => "[" ++ renderJsonSeq l ++ "]"
  | .obj m => "\x7b" ++ renderJsonObj m ++ "\x7d"

/-- Comma-joined renderings of array elements. -/
def renderJsonSeq : JsonSeq → String
  | .nil => ""
  | .cons v .nil => renderJson v
  | .cons v tl => renderJson v ++ "," ++ renderJsonSeq tl

/-- Comma-joined renderings of object members. -/
def renderJsonObj : JsonObj → String
  | .nil => ""
  | .cons k v .nil => renderJsonString k ++ ":" ++ renderJson v
  | .cons k v tl => renderJsonString k ++ ":" ++ renderJson v ++ "," ++ renderJsonObj tl

end

/-- A string is well-formed JSON when some JSON value renders to it. -/
def jsonWellFormed (s : String) : Prop :=
  ∃ v : JsonValue, renderJson v = s

namespace TableData

/-- The JSON validity check of `try_update_primitive_value`
(`serde_json::from_str::<&'_ str>(&*json_str)`): deserializing into a
borrowed `&str` succeeds only when the document — after surrounding
whitespace — is a JSON **string literal** that can be borrowed verbatim,
i.e. a quoted run containing no `"`, no `\` escape and no control
character.  Every other document (objects, arrays, numbers, booleans, null)
fails to deserialize into `&str`. -/
def parsesAsBorrowedJsonStr (s : String) : Bool :=
  let isJsonWs : Char → Bool := fun c => c == ' ' || c == '\t' || c == '\n' || c == '\r'
  let cs := ((s.toList.dropWhile isJsonWs).reverse.dropWhile isJsonWs).reverse
  decide (2 ≤ cs.length) && (cs.head? == some '"') && (cs.getLast? == some '"')
    && (cs.drop 1).dropLast.all (fun c => c != '"' && c != '\\' && 32 ≤ c.toNat)

/-- The JSON-column branch of `table_data.rs` `try_update_primitive_value`:
the table's rows are the oid paired with the JSON cell (`CAST(... AS TEXT)`
of the column).  A non-null payload failing the serde check aborts with the
source's error before anything is read or written; otherwise the prior value
is selected (`query_one`, failing with `QueryReturnedNoRows` when the row
does not exist), the cell is updated to the unmodified payload, the
transaction commits, and the prior value is returned. -/
def try_update_json_value (rows : List (ℤ × Option String)) (row_oid : ℤ)
    (new_value : Option String) :
    Except Err (List (ℤ × Option String) × Option String) :=
  match new_value, (match new_value with
    | some js => parsesAsBorrowedJsonStr js
    | none => true) with
  | some _, false => .error (.adhocError "The provided value is invalid JSON.")
  | _, _ =>
    match rows.find? (fun rp => rp.1 = row_oid) with
    | none => .error .queryReturnedNoRows
    | some rp =>
      .ok (rows.map (fun q => if q.1 = row_oid then (q.1, new_value) else q), rp.2)

end TableData

/-- C5: the payload `{}` is well-formed JSON (it renders the empty object),
yet `try_update_primitive_value` on a JSON column rejects it with "The
provided value is invalid JSON." and leaves the row unchanged: the serde
check deserializes into `&str` and therefore accepts only JSON string
literals.  The claim's "fails iff the payload is not well-formed JSON" is
false at this input. -/
theorem json_update_rejects_empty_object :
    TableData.try_update_json_value [((1 : ℤ), (none : Option String))] 1 (some "{}") =
      .error (.adhocError "The provided value is invalid JSON.")
    ∧ jsonWellFormed "{}" := by
  constructor
  · rfl
  · exact ⟨JsonValue.obj JsonObj.nil, by decide⟩

namespace ColumnNs

/-- One row of a dropdown-values relation `TABLE<typeId>(OID, TRASH, VALUE)`. -/
structure DropdownRow where
  oid : ℤ
  trash : Bool
  value : Option String
deriving DecidableEq, Repr

/-- `column.rs` `DropdownValue` (the deserialized command payload). -/
structure DropdownValue where
  true_value : Option String
  display_value : Option String
deriving DecidableEq, Repr

/-- `SELECT MAX(OID)` over the values relation (0 on an empty relation,
matching SQLite's rowid allocation base). -/
def maxDropdownOid (rows : List DropdownRow) : ℤ :=
  (rows.map (·.oid)).foldl max 0

/-- The statements `set_table_column_dropdown_values` runs inside its
transaction, for a single- or multi-select column with values relation
`rows`: flag every row as trash, then for each supplied value either update
the row addressed by the parsed `true_value` oid (re-assigning its OID to
`MAX(OID) + 1` and storing the display value — the trash flag is left set)
or, when `true_value` is absent, insert a fresh non-trash row. -/
def set_dropdown_values_statements (rows : List DropdownRow)
    (dropdown_values : List DropdownValue) : Except Err (List DropdownRow) :=
  let rows := rows.map (fun r => { r with trash := true })
  dropdown_values.foldlM
    (fun rows v =>
      match v.true_value with
      | some oidStr =>
        match oidStr.toInt? with
        | none => .error (.adhocError "Unable to parse dropdown value OID as integer.")
        | some dropdownOid =>
          .ok (rows.map (fun r =>
            if r.oid = dropdownOid then
              { r with oid := maxDropdownOid rows + 1, value := v.display_value }
            else r))
      | none =>
        .ok (rows ++ [⟨maxDropdownOid rows + 1, false, v.display_value⟩]))
    rows

/-- `column.rs` `set_table_column_dropdown_values`: runs the statements
above and then returns `Ok` **without calling `trans.commit()`** — alone
among the mutating functions of the module.  The Boolean records whether the
transaction was committed before the function returned. -/
def set_table_column_dropdown_values (rows : List DropdownRow)
    (dropdown_values : List DropdownValue) :
    Except Err (List DropdownRow × Bool) :=
  (set_dropdown_values_statements rows dropdown_values).map
    (fun pending => (pending, false))

/-- The state of the backing store after the call: rusqlite's `Transaction`
rolls back when dropped without `commit()`, so an uncommitted (or failed)
transaction leaves the original store. -/
def persistentStore (orig : List DropdownRow) :
    Except Err (List DropdownRow × Bool) → List DropdownRow
  | .ok (pending, committed) => if committed then pending else orig
  | .error _ => orig

end ColumnNs

/-- C8: `setDropdownValues` on a values relation holding one row `(1, "Old")`
with the single supplied value `"New"` (no true-value id) returns `Ok`, and
inside the transaction the old row is flagged as trash and the new row
inserted — but the function never calls `trans.commit()`, so the transaction
is rolled back on drop and the persistent store still holds exactly the
original untrashed row: nothing the claim describes is reflected in the
store. -/
theorem set_dropdown_values_not_committed :
    ColumnNs.set_table_column_dropdown_values [⟨1, false, some "Old"⟩]
        [⟨none, some "New"⟩] =
      .ok ([⟨1, true, some "Old"⟩, ⟨2, false, some "New"⟩], false)
    ∧ ColumnNs.persistentStore [⟨1, false, some "Old"⟩]
        (ColumnNs.set_table_column_dropdown_values [⟨1, false, some "Old"⟩]
          [⟨none, some "New"⟩]) =
      [⟨1, false, some "Old"⟩] := by
  constructor
  · rfl
  · rfl

namespace Journal

/-- The column-related variants of the `Action` union of `backend.rs`.  The
remaining variants touch other relations and are not needed to settle the
claims proved here; every variant listed executes exactly as in
`Action::execute`. -/
inductive JAction where
  | createTableColumn (table_oid : ℤ) (column_name : String) (column_ordering : Option ℤ)
  | deleteTableColumn (table_oid column_oid : ℤ)
  | restoreDeletedTableColumn (table_oid column_oid : ℤ)
deriving DecidableEq, Repr

/-- The journal state: the `METADATA_TABLE_COLUMN` relation of the backing
store together with the two process-wide stacks `REVERSE_STACK` and
`FORWARD_STACK` (head of the list = top of the stack). -/
structure State where
  store : List ColumnNs.ColumnRow
  reverse : List JAction
  forward : List JAction
deriving DecidableEq, Repr

/-- `Action::execute`: pushes the inverse action onto the reverse stack when
executing forward and onto the forward stack when executing in reverse. -/
def pushInverse (s : State) (is_forward : Bool) (inv : JAction) : State :=
  if is_forward then { s with reverse := inv :: s.reverse }
  else { s with forward := inv :: s.forward }

/-- `Action::execute` of `backend.rs` for the column actions:
`CreateTableColumn` runs `column::create` and registers
`DeleteTableColumn { new oid }` as its inverse; `DeleteTableColumn` runs
`column::move_trash` and registers `RestoreDeletedTableColumn`;
`RestoreDeletedTableColumn` runs `column::unmove_trash` and registers
`DeleteTableColumn`.  (The `update-table-data` emission has no effect on the
store.) -/
def executeAction (s : State) (is_forward : Bool) : JAction → State
  | .createTableColumn t nm o =>
    let (cols, newOid) := ColumnNs.create s.store t nm o
    pushInverse { s with store := cols } is_forward (.deleteTableColumn t newOid)
  | .deleteTableColumn t c =>
    pushInverse { s with store := ColumnNs.move_trash s.store c } is_forward
      (.restoreDeletedTableColumn t c)
  | .restoreDeletedTableColumn t c =>
    pushInverse { s with store := ColumnNs.unmove_trash s.store c } is_forward
      (.deleteTableColumn t c)

/-- The `execute` command of `backend.rs`: run the action forward, then
clear the stack of undone actions. -/
def executeCmd (s : State) (a : JAction) : State :=
  { executeAction s true a with forward := [] }

/-- The `undo` command of `backend.rs`: pop the reverse stack and execute
the popped action with `is_forward = false` (no-op on an empty stack). -/
def undoCmd (s : State) : State :=
  match s.reverse with
  | [] => s
  | a :: rest => executeAction { s with reverse := rest } false a

end Journal

/-- C1: a store whose table 10 holds one column (oid 11, ordering 1).
Executing the single successful action `CreateTableColumn{table 10,
ordering Some(1)}` and then calling `undo()` once does not return the store
to a state indistinguishable from the initial one: the undo merely trashes
the new column (oid 12) and never un-shifts the pre-existing column's
`COLUMN_ORDERING`, so `get_table_column_list(10)` reports column 11 at
ordering 2 instead of 1. -/
theorem undo_create_column_not_restoring :
    ColumnNs.send_metadata_list
        (Journal.undoCmd
          (Journal.executeCmd (Journal.State.mk [⟨11, 10, "Name", 1, false⟩] [] [])
            (.createTableColumn 10 "NewCol" (some 1)))).store 10
      ≠ ColumnNs.send_metadata_list [⟨11, 10, "Name", 1, false⟩] 10 := by
  decide

/-- C6: on a table that already has a column with ordering 1, creating a
column with no explicit ordering assigns the new column ordering
`COALESCE(MAX(COLUMN_ORDERING), 0) = 1` — a duplicate of the existing
column's ordering, not the strictly greater `COALESCE(MAX) + 1 = 2` the
claim states (the `SELECT` in `column.rs` lines 46–50 never adds 1). -/
theorem create_without_ordering_collides :
    (ColumnNs.create [⟨11, 10, "A", 1, false⟩] 10 "B" none).1 =
      [⟨11, 10, "A", 1, false⟩, ⟨12, 10, "B", 1, false⟩]
    ∧ ColumnNs.coalesceMaxOrdering [⟨11, 10, "A", 1, false⟩] 10 + 1 = 2 := by
  constructor <;> rfl

/-- C7 (counterexample): create with explicit ordering 3 on a table whose
only pre-existing column is trashed with ordering 5.  The trashed column is
not in the claim's "non-trashed with ordering ≥ o" class, so the claim says
its ordering is unchanged; the code's `UPDATE` has no `TRASH` filter and
shifts it from 5 to 6. -/
theorem create_shifts_trashed_column :
    ColumnNs.findColumn
        (ColumnNs.create [⟨11, 10, "A", 5, true⟩] 10 "B" (some 3)).1 11 =
      some ⟨11, 10, "A", 6, true⟩
    ∧ (6 : ℤ) ≠ 5 := by
  constructor
  · rfl
  · decide

/-- C7 (amended): after a create with explicit ordering `o` on table `T`,
every pre-existing column of `T` with ordering ≥ `o` — trashed or not — has
its ordering incremented by one, and every pre-existing column of another
table or with ordering < `o` is unchanged. -/
theorem create_with_ordering_shift (cols : List ColumnNs.ColumnRow)
    (T o : ℤ) (nm : String) (c : ColumnNs.ColumnRow)
    (hc : c ∈ cols) (hnd : (cols.map (·.oid)).Nodup) :
    ColumnNs.findColumn (ColumnNs.create cols T nm (some o)).1 c.oid =
      some (ColumnNs.shiftOne T o c) := by
  show (ColumnNs.shiftOrderings cols T o ++
      [ColumnNs.ColumnRow.mk (ColumnNs.maxColumnOid (ColumnNs.shiftOrderings cols T o) + 1)
        T nm o false]).find?
      (fun d => d.oid = c.oid) = some (ColumnNs.shiftOne T o c)
  rw [List.find?_append, ColumnNs.find?_shiftOrderings T o cols c hc hnd]
  rfl

/-- Witness for `create_with_ordering_shift`: the trashed column
⟨11, 10, "A", 5⟩ with create ordering 3 on table 10. -/
theorem create_with_ordering_shift_witness :
    ColumnNs.findColumn
        (ColumnNs.create [ColumnNs.ColumnRow.mk 11 10 "A" 5 true] 10 "B" (some 3)).1 11 =
      some (ColumnNs.shiftOne 10 3 (ColumnNs.ColumnRow.mk 11 10 "A" 5 true)) :=
  create_with_ordering_shift [ColumnNs.ColumnRow.mk 11 10 "A" 5 true] 10 3 "B"
    (ColumnNs.ColumnRow.mk 11 10 "A" 5 true) (by simp) (by decide)

/-- C9: evaluating `Primitive::get_sqlite_type` shows that the storage type
chosen for `Timestamp` is `INTEGER`, not the `REAL` asserted by the claim
(and required by the Julian-fractional-day values that
`try_update_primitive_value` writes into such columns), while every other
primitive type is stored exactly as the claim says. -/
theorem timestamp_storage_type_is_integer :
    ColumnType.Primitive.get_sqlite_type .Timestamp = "INTEGER"
    ∧ ColumnType.claimedStorageType .Timestamp = "REAL"
    ∧ ∀ p : ColumnType.Primitive, p = .Timestamp ∨
        ColumnType.Primitive.get_sqlite_type p = ColumnType.claimedStorageType p := by
  refine ⟨rfl, rfl, ?_⟩
  intro p
  cases p <;> simp [ColumnType.Primitive.get_sqlite_type, ColumnType.claimedStorageType]

end StaticDB
